import Mathlib

/-!
Verification development for the `survivor-api` scraper (`src/scraper.py`).

The Python source is shallowly embedded below.  Python strings are Lean
`String`s, `None`-able values are `Option`s, and regular-expression
operations are translated into explicit character-level scanners that
reproduce the behaviour of the concrete patterns used by the source.
Every definition mirrors one Python function (named in its doc comment).
-/

namespace Survivor

/-! ## Basic string helpers

All character-level scanning is done on `List Char` (`String.data`) so that
every definition evaluates by kernel reduction. -/

/-- Python `s.strip()` on a character list. -/
def trimL (l : List Char) : List Char :=
  ((l.dropWhile Char.isWhitespace).reverse.dropWhile Char.isWhitespace).reverse

/-- Python `s.strip()`. -/
def pyStrip (s : String) : String := String.mk (trimL s.data)

/-- Python `s.lower()` (ASCII case folding). -/
def lowerL (l : List Char) : List Char := l.map Char.toLower

/-- Python `s.lower()`. -/
def pyLower (s : String) : String := String.mk (lowerL s.data)

/-- The `s.split()` worker: words separated by whitespace runs, empties dropped. -/
def wordsAux : List Char → List Char → List (List Char)
  | [], acc => if acc = [] then [] else [acc.reverse]
  | c :: rest, acc =>
    if c.isWhitespace then
      if acc = [] then wordsAux rest []
      else acc.reverse :: wordsAux rest []
    else wordsAux rest (c :: acc)

/-- Interpose single spaces between words (`" ".join(...)`). -/
def joinSpaces : List (List Char) → List Char
  | [] => []
  | [w] => w
  | w :: ws => w ++ ' ' :: joinSpaces ws

/-- Python `" ".join(s.split())`: collapse whitespace runs, drop leading and
trailing whitespace (used by `_clean_air_date`, line 82). -/
def wsNormalize (s : String) : String :=
  String.mk (joinSpaces (wordsAux s.data []))

/-- Python `s.replace(",", "")` (used by `_to_int` / `_to_float`). -/
def removeCommas (s : String) : String :=
  String.mk (s.data.filter (fun c => c ≠ ','))

/-- Value of a maximal digit run, e.g. `int(m.group(0))`. -/
def digitsToNat (ds : List Char) : Nat :=
  ds.foldl (fun a c => 10 * a + (c.toNat - 48)) 0

/-- The first maximal run of digits in a character list
(`re.search(r"\d+", s)` match). -/
def firstDigitRun : List Char → Option (List Char)
  | [] => none
  | c :: rest =>
    if c.isDigit then some (c :: rest.takeWhile Char.isDigit)
    else firstDigitRun rest

/-- The `re.search(r"\d+", s)` converted to an integer, `None` when absent. -/
def firstIntToken (s : String) : Option Nat :=
  (firstDigitRun s.data).map digitsToNat

/-- The `_to_int` (scraper.py lines 375-379): first integer after stripping
commas; `None` for the empty string or when no digits occur. -/
def toInt (s : String) : Option Nat :=
  if s = "" then none else firstIntToken (removeCommas s)

/-- Is `nd` a prefix of `hay`? (Bool helper for substring tests.) -/
def leadMatch : List Char → List Char → Bool
  | [], _ => true
  | _ :: _, [] => false
  | a :: as, b :: bs => a = b && leadMatch as bs

/-- Does `hay` contain `nd` as a contiguous substring? -/
def listContainsSub (nd : List Char) : List Char → Bool
  | [] => leadMatch nd []
  | c :: rest => leadMatch nd (c :: rest) || listContainsSub nd rest

/-- Substring test on strings (Python `"x" in s`). -/
def strContainsSub (nd hay : String) : Bool :=
  listContainsSub nd.data hay.data

/-- Strip a set of characters from both ends (Python `s.strip('chars')`). -/
def stripChars (cs : List Char) (s : String) : String :=
  String.mk (((s.data.dropWhile (fun c => cs.contains c)).reverse.dropWhile
    (fun c => cs.contains c)).reverse)

/-! ## Field validation / cleaning (`scraper.py` lines 63-118) -/

/-- The month-name alternatives of `DATE_RE` (line 63). -/
def monthNames : List String :=
  ["January", "February", "March", "April", "May", "June", "July",
   "August", "September", "October", "November", "December"]

/-- The `BAD_AIRDATE_TOKENS` (line 67). -/
def badAirdateTokens : List String :=
  ["—", "-", "— —", "tbd", "tbp", "unknown", "n/a", "na", "tba", "tbc"]

/-- Matches `\s+\d{4}$`: at least one whitespace character, then exactly
four digits ending the string. -/
def dateYearMatch (l : List Char) : Bool :=
  match l.dropWhile Char.isWhitespace, l.takeWhile Char.isWhitespace with
  | _, [] => false
  | y1 :: y2 :: y3 :: y4 :: [], _ :: _ =>
    y1.isDigit && y2.isDigit && y3.isDigit && y4.isDigit
  | _, _ => false

/-- Matches the tail `\s+\d{1,2},\s+\d{4}$` of `DATE_RE` after the month
name.  The digit count is deterministic: after two digits the next
character must be the comma, and a digit can never satisfy the comma
requirement of the one-digit alternative, so no backtracking arises. -/
def dateTailMatch (l : List Char) : Bool :=
  match l.dropWhile Char.isWhitespace, l.takeWhile Char.isWhitespace with
  | _, [] => false
  | rest, _ :: _ =>
    match rest with
    | d1 :: rest1 =>
      if d1.isDigit then
        match rest1 with
        | ',' :: rest2 => dateYearMatch rest2
        | d2 :: ',' :: rest2 => d2.isDigit && dateYearMatch rest2
        | _ => false
      else false
    | [] => false

/-- The `bool(DATE_RE.match(s))` (line 63): anchored month-name alternation
followed by day, comma and year.  The month names are prefix-free, so
trying each alternative on the whole string is exact. -/
def dateReMatch (s : String) : Bool :=
  monthNames.any (fun m =>
    leadMatch m.data s.data && dateTailMatch (s.data.drop m.data.length))

/-- The `_is_valid_air_date` (lines 71-77) on a present string. -/
def isValidAirDateStr (s : String) : Bool :=
  if s = "" then false
  else
    let t := pyStrip s
    if badAirdateTokens.contains (pyLower t) then false
    else dateReMatch t

/-- The `_is_valid_air_date` (lines 71-77), `Optional[str]` argument. -/
def isValidAirDate : Option String → Bool
  | none => false
  | some s => isValidAirDateStr s

/-- Case-insensitive literal prefix match; returns the remainder
(`re.I` matching of a letter pattern). -/
def dropCI : List Char → List Char → Option (List Char)
  | [], l => some l
  | _ :: _, [] => none
  | p :: ps, c :: cs => if p.toLower = c.toLower then dropCI ps cs else none

/-- The `re.sub(r"^(air\s*date\s*:)\s*", "", s, flags=re.I)` (line 83). -/
def stripAirDateLabel (l : List Char) : List Char :=
  match dropCI "air".data l with
  | none => l
  | some r1 =>
    match dropCI "date".data (r1.dropWhile Char.isWhitespace) with
    | none => l
    | some r2 =>
      match r2.dropWhile Char.isWhitespace with
      | ':' :: r3 => r3.dropWhile Char.isWhitespace
      | _ => l

/-- One step of `re.sub(r"\[[^\]]+\]", "", s)`: split at the first `]`. -/
def splitAtRBracket : List Char → Option (List Char × List Char)
  | [] => none
  | ']' :: rest => some ([], rest)
  | c :: rest => (splitAtRBracket rest).map (fun p => (c :: p.1, p.2))

/-- Fuelled scanner for `re.sub(r"\[[^\]]+\]", "", s)` (line 84): at a `[`,
a non-empty bracketed run up to the next `]` is removed (the regex scan is
non-overlapping, left to right); otherwise the character is kept. -/
def stripBracketsFuel : Nat → List Char → List Char
  | 0, l => l
  | _ + 1, [] => []
  | fuel + 1, '[' :: rest =>
    match splitAtRBracket rest with
    | some (inner, after) =>
      if inner ≠ [] then stripBracketsFuel fuel after
      else '[' :: stripBracketsFuel fuel rest
    | none => '[' :: stripBracketsFuel fuel rest
  | fuel + 1, c :: rest => c :: stripBracketsFuel fuel rest

/-- The `re.sub(r"\[[^\]]+\]", "", s)` (line 84). -/
def stripBrackets (l : List Char) : List Char :=
  stripBracketsFuel l.length l

/-- The `_clean_air_date` (lines 79-87) on a present string: whitespace
normalization, leading "air date:" label removal, citation-bracket
removal, then validation; an invalid candidate becomes `none`. -/
def cleanAirDateStr (s : String) : Option String :=
  if s = "" then none
  else
    let s1 := wsNormalize s
    let s2 := String.mk (stripAirDateLabel s1.data)
    let s3 := String.mk (trimL (stripBrackets s2.data))
    if isValidAirDateStr s3 then some s3 else none

/-- The `_clean_air_date` (lines 79-87), `Optional[str]` argument. -/
def cleanAirDate : Option String → Option String
  | none => none
  | some s => cleanAirDateStr s

/-- The `re.search(r"\^\d", s)`: a caret immediately followed by a digit. -/
def hasCaretDigit : List Char → Bool
  | c1 :: c2 :: rest => (c1 = '^' && c2.isDigit) || hasCaretDigit (c2 :: rest)
  | _ => false

/-- Python `s.startswith(p)`. -/
def pyStartsWith (s p : String) : Bool := leadMatch p.data s.data

/-- The `_looks_like_notes_blob` (lines 89-95). -/
def looksLikeNotesBlob (s : String) : Bool :=
  let t := pyStrip (pyLower s)
  pyStartsWith t "notes:" || pyStartsWith t "note:" ||
    strContainsSub "combined reward and immunity" t ||
    hasCaretDigit t.data

/-- The apostrophe character (ASCII 39). -/
def apos : Char := Char.ofNat 39

/-- The `re.match(r"^[A-Z][a-zA-Z'-]{1,}$", s)`: a single capitalized token. -/
def capitalizedToken : List Char → Bool
  | [] => false
  | c :: rest =>
    ('A' ≤ c && c ≤ 'Z') && !rest.isEmpty &&
      rest.all (fun d => ('a' ≤ d && d ≤ 'z') || ('A' ≤ d && d ≤ 'Z') ||
        d = apos || d = '-')

/-- The `_looks_like_name_garbage` (lines 97-104). -/
def looksLikeNameGarbage (s : String) : Bool :=
  let t := pyStrip s
  if t = "" then false
  else if pyStartsWith t "/" || strContainsSub " / " t then true
  else capitalizedToken t.data

/-- The quote/space character class of `_clean_quoted`. -/
def quoteChars : List Char := ['“', '”', '"', apos, ' ']

/-- The `_clean_quoted` (lines 372-373): strip whitespace, then surrounding
quote characters, then whitespace again. -/
def cleanQuoted (s : String) : String :=
  pyStrip (stripChars quoteChars (pyStrip s))

/-- The `_parse_span` (lines 111-118): first integer embedded in the attribute
value, defaulting when the attribute is missing, empty or digit-free, and
clamped to `[1, hardCap]`. -/
def parseSpan (value : Option String) (dflt : Nat := 1) (hardCap : Nat := 50) : Nat :=
  match value with
  | none => dflt
  | some s =>
    if s = "" then dflt
    else
      match firstIntToken s with
      | none => dflt
      | some n => max 1 (min n hardCap)

/-- First match of `([0-9]+(?:\.[0-9]+)?)` in a character list, returned as
the matched token. -/
def firstFloatRun : List Char → Option (List Char)
  | [] => none
  | c :: rest =>
    if c.isDigit then
      let intPart := c :: rest.takeWhile Char.isDigit
      let after := rest.dropWhile Char.isDigit
      match after with
      | '.' :: d :: _ =>
        if d.isDigit then
          some (intPart ++ '.' :: (after.drop 1).takeWhile Char.isDigit)
        else some intPart
      | _ => some intPart
    else firstFloatRun rest

/-- The `_to_float` (lines 381-386), keeping the matched numeric token as a
string: the floating-point conversion itself carries no further
information used by the pipeline. -/
def toFloatTok (s : String) : Option String :=
  if s = "" then none
  else (firstFloatRun (removeCommas s).data).map String.mk

/-! ## Season label resolution (`_season_number_from_cell`, lines 388-405) -/

/-- Association-list lookup with string keys (Python `dict.get`). -/
def assocFind (k : String) : List (String × Nat) → Option Nat
  | [] => none
  | p :: rest => if p.1 = k then some p.2 else assocFind k rest

/-- The `name_map` literal of `_season_number_from_cell` (lines 393-404). -/
def seasonNameMap : List (String × Nat) :=
  [("Borneo", 1), ("The Australian Outback", 2), ("Africa", 3), ("Marquesas", 4),
   ("Thailand", 5), ("The Amazon", 6), ("Pearl Islands", 7), ("All-Stars", 8),
   ("Vanuatu", 9), ("Palau", 10), ("Guatemala", 11), ("Panama", 12),
   ("Cook Islands", 13), ("Fiji", 14), ("China", 15), ("Micronesia", 16),
   ("Gabon", 17), ("Tocantins", 18), ("Samoa", 19), ("Heroes vs. Villains", 20),
   ("Nicaragua", 21), ("Redemption Island", 22), ("South Pacific", 23),
   ("One World", 24), ("Philippines", 25), ("Caramoan", 26),
   ("Blood vs. Water", 27), ("Cagayan", 28), ("San Juan del Sur", 29),
   ("Worlds Apart", 30), ("Cambodia", 31), ("Kaôh Rōng", 32),
   ("Millennials vs. Gen X", 33), ("Game Changers", 34),
   ("Heroes vs. Healers vs. Hustlers", 35), ("Ghost Island", 36),
   ("David vs. Goliath", 37), ("Edge of Extinction", 38),
   ("Island of the Idols", 39), ("Winners at War", 40)]

/-- The `_season_number_from_cell` (lines 388-405): first a bare numeric token
anywhere in the stripped label, then the exact-title map. -/
def seasonNumberFromCell (text : String) : Option Nat :=
  let t := pyStrip text
  match firstIntToken t with
  | some n => some n
  | none => assocFind t seasonNameMap

/-- The resolution order described by the specification (§4.4/§4.6): the
season-title lookup first, and only on lookup failure a scan of the label
for a bare numeric token.  Modelled from the spec for comparison with
`seasonNumberFromCell`. -/
def seasonNumberFromCellSpecOrder (text : String) : Option Nat :=
  let t := pyStrip text
  match assocFind t seasonNameMap with
  | some n => some n
  | none => firstIntToken t

/-! ## Table normalization (`_normalize_table_rows`, lines 120-198)

A table cell carries its kind (`th` vs `td`), its extracted text
(`_cell_text`), and the raw `colspan`/`rowspan` attribute strings; a table
row carries its cells and its `class` attribute tokens. -/

structure Cell where
  isHeader : Bool
  text : String
  colspan : Option String := none
  rowspan : Option String := none
deriving DecidableEq

structure TrNode where
  cells : List Cell
  classes : List String := []
deriving DecidableEq

/-- An entry of the `pending` row-span table: text plus remaining rows. -/
abbrev Slot := Option (String × Nat)

/-- The `tr.find_all("th")` is non-empty. -/
def hasTh (tr : TrNode) : Bool := tr.cells.any (fun c => c.isHeader)

/-- Locate the first row containing a header cell (lines 129-135);
returns it with the remaining rows (`rows[rows.index(header_tr)+1:]`). -/
def findHeader : List TrNode → Option (TrNode × List TrNode)
  | [] => none
  | tr :: rest => if hasTh tr then some (tr, rest) else findHeader rest

/-- Header-derived column count (lines 138-140): sum of the header cells'
clamped column spans. -/
def numColsOf (header : TrNode) : Nat :=
  ((header.cells.filter (fun c => c.isHeader)).map
    (fun th => parseSpan th.colspan)).sum

/-- Expanded header row before padding (lines 144-149). -/
def headerRowOf (header : TrNode) : List String :=
  (header.cells.filter (fun c => c.isHeader)).flatMap
    (fun th => List.replicate (parseSpan th.colspan) th.text)

/-- Pad with empty strings or truncate to exactly `n` cells
(lines 150-153 and 184-187). -/
def padTrunc (n : Nat) (row : List String) : List String :=
  if row.length < n then row ++ List.replicate (n - row.length) ""
  else row.take n

/-- The updated pending slot after a consumed cell is written into a
column (line 182: assigned only when the row-span exceeds 1). -/
def newSlotFor (text : String) (rspan : Nat) (old : Slot) : Slot :=
  if rspan > 1 then some (text, rspan - 1) else old

/-- The column-walking loop of `build_row_from_tr` (lines 158-188), one
recursion step per remaining column.  The `carry` argument is the residue
of an in-progress column-span write `(text, columns left, row-span)` —
note that while a column-span is being written the pending table is *not*
consulted (the Python inner `for` loop). `StopIteration` (lines 171-175)
pads the rest of the row and leaves the remaining pending slots untouched. -/
def goRow : List Slot → Option (String × Nat × Nat) → List Cell →
    List String × List Slot
  | [], _, _ => ([], [])
  | sl :: ps, some (t, cl, rspan), cs =>
    let carryNext := if cl - 1 = 0 then none else some (t, cl - 1, rspan)
    let res := goRow ps carryNext cs
    (t :: res.1, newSlotFor t rspan sl :: res.2)
  | some (v, rem) :: ps, none, cs =>
    let res := goRow ps none cs
    (v :: res.1, (if rem - 1 > 0 then some (v, rem - 1) else none) :: res.2)
  | none :: ps, none, [] =>
    (List.replicate (ps.length + 1) "", none :: ps)
  | none :: ps, none, c :: rest =>
    let cspan := parseSpan c.colspan
    let rspan := parseSpan c.rowspan
    let m := min cspan (ps.length + 1)
    let carryNext := if m - 1 = 0 then none else some (c.text, m - 1, rspan)
    let res := goRow ps carryNext rest
    (c.text :: res.1, newSlotFor c.text rspan none :: res.2)

/-- The `build_row_from_tr` (lines 158-188). -/
def buildRowFromTr (numCols : Nat) (pending : List Slot) (tr : TrNode) :
    List String × List Slot :=
  let res := goRow pending none tr.cells
  (padTrunc numCols res.1, res.2)

/-- Is a row skipped by the body loop (lines 192-195): no cells, or a
`class` token containing `sortbottom`. -/
def skipTr (tr : TrNode) : Bool :=
  tr.cells.isEmpty ||
    (!tr.classes.isEmpty && tr.classes.any (fun c => strContainsSub "sortbottom" c))

/-- The body loop of `_normalize_table_rows` (lines 190-196), threading the
pending row-span table across emitted rows. -/
def processRows (numCols : Nat) : List Slot → List TrNode → List (List String)
  | _, [] => []
  | pending, tr :: rest =>
    if skipTr tr then processRows numCols pending rest
    else
      let res := buildRowFromTr numCols pending tr
      res.1 :: processRows numCols res.2 rest

/-- The `_normalize_table_rows` (lines 120-198). -/
def normalizeTableRows (rows : List TrNode) : List (List String) :=
  match findHeader rows with
  | none => []
  | some (header, rest) =>
    let numCols := numColsOf header
    padTrunc numCols (headerRowOf header) ::
      processRows numCols (List.replicate numCols none) rest

/-! ## Episode records and reconciliation -/

/-- An episode record (the dict built at lines 552-562 / 822-831).
`us_viewers_millions` keeps the numeric token matched by `_to_float`; the
enrichment keys are absent (`none`) until `enrich_episode_details` adds
them. -/
structure Rec where
  season_number : Nat
  season_label : Option String := none
  episode_in_season : Nat
  overall_episode_number : Option Nat := none
  title : Option String := none
  air_date : Option String := none
  episode_type : Option String := none
  us_viewers_millions : Option String := none
  source_url : Option String := none
  episode_page_url : Option String := none
  immunity_winners : Option (List String) := none
  eliminated : Option (List String) := none
  advantage_events : Option (List (String × String)) := none
deriving DecidableEq

/-- Python truthiness of an optional string field (`rec.get(k)`):
present and non-empty. -/
def truthy : Option String → Bool
  | none => false
  | some s => s ≠ ""

/-- The duplicate-preference test (lines 573-576 / 774-775 / 842-843):
the challenger has an air date the incumbent lacks, or a title the
incumbent lacks. -/
def betterRec (rec old : Rec) : Bool :=
  (truthy rec.air_date && !truthy old.air_date) ||
    (truthy rec.title && !truthy old.title)

/-- Reconciliation of two records sharing a key (lines 568-578): keep the
incumbent `old` unless the challenger `rec` is `betterRec`, in which case
the challenger replaces the record wholesale. -/
def mergeStep (old rec : Rec) : Rec :=
  if betterRec rec old then rec else old

/-- Replace the value stored at the first occurrence of key `k`
(Python `tmp[epn] = rec` on an existing key keeps its position). -/
def assocUpdate (k : Nat) (v : Rec) : List (Nat × Rec) → List (Nat × Rec)
  | [] => []
  | p :: rest => if p.1 = k then (k, v) :: rest else p :: assocUpdate k v rest

/-- Nat-keyed association lookup (Python `epn in tmp` / `tmp[epn]`). -/
def assocFindN (k : Nat) : List (Nat × Rec) → Option Rec
  | [] => none
  | p :: rest => if p.1 = k then some p.2 else assocFindN k rest

/-- One step of the `tmp` dedupe loop (lines 567-578): insert under the
record's `episode_in_season`, preferring the more complete record. -/
def dedupeIns (tmp : List (Nat × Rec)) (rec : Rec) : List (Nat × Rec) :=
  match assocFindN rec.episode_in_season tmp with
  | none => tmp ++ [(rec.episode_in_season, rec)]
  | some old => if betterRec rec old then
      assocUpdate rec.episode_in_season rec tmp
    else tmp

/-- The full `tmp` table after the dedupe loop. -/
def dedupeFold (recs : List Rec) : List (Nat × Rec) :=
  recs.foldl dedupeIns []

/-- Sort key comparison: `key=lambda x: x.get("episode_in_season") or 0`
(`episode_in_season` is always an integer in every record built by this
module, so the `or 0` is the identity). -/
def epLE (a b : Rec) : Prop := a.episode_in_season ≤ b.episode_in_season

instance : DecidableRel epLE := fun a b =>
  inferInstanceAs (Decidable (a.episode_in_season ≤ b.episode_in_season))

instance : IsTotal Rec epLE :=
  ⟨fun a b => Nat.le_total a.episode_in_season b.episode_in_season⟩

instance : IsTrans Rec epLE :=
  ⟨fun _ _ _ h1 h2 => Nat.le_trans h1 h2⟩

/-- The `sorted(..., key=lambda x: x.get("episode_in_season") or 0)` /
`[tmp[k] for k in sorted(tmp)]`: with all keys distinct the two forms
coincide — the records in ascending `episode_in_season` order. -/
def sortByEp (l : List Rec) : List Rec := List.insertionSort epLE l

/-- Dedupe then sort (lines 564-579, 765-778 and 833-846 all end with
this shape). -/
def sortedDedupe (recs : List Rec) : List Rec :=
  sortByEp ((dedupeFold recs).map Prod.snd)

/-! ## `_parse_master_table_into_dict` (lines 494-580)

The function receives the normalized matrix's data rows together with the
column-role map `_build_colmap` derived from the header; the guard at
line 504 guarantees that the `season` and `title` roles are mapped. -/

structure ColMap where
  season : Nat
  overall : Option Nat := none
  in_season : Option Nat := none
  title : Nat
  air_date : Option Nat := none
  ep_type : Option Nat := none
  viewers : Option Nat := none
deriving DecidableEq

/-- The `row[i]` on a rectangular row (all indices produced by
`_build_colmap` are within the header width). -/
def rowGet (row : List String) (i : Nat) : String := row.getD i ""

/-- The per-season counter table `per_season_counter`
(`.get(sn, 0)` / `.setdefault(sn, 0)` reads). -/
def cntOf (counters : List (Nat × Nat)) (sn : Nat) : Nat :=
  match counters with
  | [] => 0
  | p :: rest => if p.1 = sn then p.2 else cntOf rest sn

/-- Set (or add) a counter entry. -/
def cntSet (sn v : Nat) : List (Nat × Nat) → List (Nat × Nat)
  | [] => [(sn, v)]
  | p :: rest => if p.1 = sn then (sn, v) :: rest else p :: cntSet sn v rest

/-- The episode-number logic of lines 536-544 (and 812-817): an absent
in-season number is supplied by the advanced counter; a present one
advances the counter to at least its value.  Returns the episode number,
the updated counter table and whether the number was inferred. -/
def counterUpdate (counters : List (Nat × Nat)) (sn : Nat)
    (epIn? : Option Nat) : Nat × List (Nat × Nat) × Bool :=
  match epIn? with
  | none =>
    let c := cntOf counters sn + 1
    (c, cntSet sn c counters, true)
  | some v => (v, cntSet sn (max (cntOf counters sn) v) counters, false)

/-- The loop state of `_parse_master_table_into_dict`:
`current_season_number`, `current_season_label`, `per_season_counter`. -/
structure MCtx where
  curSeason : Option Nat := none
  curLabel : Option String := none
  counters : List (Nat × Nat) := []
deriving DecidableEq

def mInit : MCtx := {}

/-- The season-context update at the top of the loop body (lines 516-519):
a non-empty season cell starts a new season context; an empty one inherits
the previous context. -/
def seasonCtxUpdate (cm : ColMap) (st : MCtx) (row : List String) : MCtx :=
  if pyStrip (rowGet row cm.season) ≠ "" then
    { st with curLabel := some (pyStrip (rowGet row cm.season)),
              curSeason := seasonNumberFromCell (pyStrip (rowGet row cm.season)) }
  else st

/-- Cleaned title of a row (lines 524-525). -/
def masterTitle (cm : ColMap) (row : List String) : String :=
  cleanQuoted (rowGet row cm.title)

/-- Raw air-date cell after the noise filters (lines 527-529). -/
def masterRawAir (cm : ColMap) (row : List String) : String :=
  let rawAir0 := match cm.air_date with
    | some i => rowGet row i
    | none => ""
  if looksLikeNotesBlob rawAir0 || looksLikeNameGarbage rawAir0 then ""
  else rawAir0

/-- Cleaned air date of a row (line 530). -/
def masterAir (cm : ColMap) (row : List String) : Option String :=
  cleanAirDateStr (masterRawAir cm row)

/-- Explicit in-season episode number of a row, when present (line 536). -/
def masterEpIn (cm : ColMap) (row : List String) : Option Nat :=
  cm.in_season.bind (fun i => toInt (rowGet row i))

/-- Overall episode number of a row (line 535). -/
def masterOverall (cm : ColMap) (row : List String) : Option Nat :=
  cm.overall.bind (fun i => toInt (rowGet row i))

/-- Episode type of a row (lines 546-547: `strip()` then `or None`). -/
def masterType (cm : ColMap) (row : List String) : Option String :=
  match cm.ep_type with
  | some i => if pyStrip (rowGet row i) = "" then none
              else some (pyStrip (rowGet row i))
  | none => none

/-- Viewers token of a row (line 549). -/
def masterViewers (cm : ColMap) (row : List String) : Option String :=
  cm.viewers.bind (fun i => toFloatTok (rowGet row i))

/-- The loop body after the season context has been updated
(lines 521-562).  Returns the updated state and the emitted record, if
any, tagged with whether its episode number was inferred from the counter
(`true`) or read from the row (`false`). -/
def masterStepB (url : Option String) (cm : ColMap) (st1 : MCtx)
    (row : List String) : MCtx × Option (Rec × Bool) :=
  match st1.curSeason with
  | none => (st1, none)
  | some sn =>
    if masterTitle cm row = "" && (masterAir cm row).isNone then (st1, none)
    else
      ({ st1 with
          counters := (counterUpdate st1.counters sn (masterEpIn cm row)).2.1 },
       some ({ season_number := sn, season_label := st1.curLabel,
               episode_in_season :=
                 (counterUpdate st1.counters sn (masterEpIn cm row)).1,
               overall_episode_number := masterOverall cm row,
               title := if masterTitle cm row = "" then none
                        else some (masterTitle cm row),
               air_date := masterAir cm row,
               episode_type := masterType cm row,
               us_viewers_millions := masterViewers cm row,
               source_url := url },
             (counterUpdate st1.counters sn (masterEpIn cm row)).2.2))

/-- One iteration of the row loop (lines 512-562): skip blank rows,
update the season context, then run the body. -/
def masterStep (url : Option String) (cm : ColMap) (st : MCtx)
    (row : List String) : MCtx × Option (Rec × Bool) :=
  if !row.any (fun c => pyStrip c ≠ "") then (st, none)
  else masterStepB url cm (seasonCtxUpdate cm st row) row

/-- The whole row loop: the tagged records emitted in order. -/
def masterRows (url : Option String) (cm : ColMap) :
    MCtx → List (List String) → List (Rec × Bool)
  | _, [] => []
  | st, row :: rest =>
    match masterStep url cm st row with
    | (st1, none) => masterRows url cm st1 rest
    | (st1, some rb) => rb :: masterRows url cm st1 rest

/-- The `episodes_by_season.setdefault(key, []).append(rec)` (line 552):
group records by season number, preserving first-seen key order and
per-key record order. -/
def groupIns (acc : List (Nat × List Rec)) (rec : Rec) : List (Nat × List Rec) :=
  match acc with
  | [] => [(rec.season_number, [rec])]
  | p :: rest =>
    if p.1 = rec.season_number then (p.1, p.2 ++ [rec]) :: rest
    else p :: groupIns rest rec

def groupBySeason (recs : List Rec) : List (Nat × List Rec) :=
  recs.foldl groupIns []

/-- The `_parse_master_table_into_dict` (lines 494-580) applied to the data
rows (`matrix[1:]`) under a given column-role map: accumulate records,
then dedupe and sort each season's list. -/
def parseMasterTableIntoDict (url : Option String) (cm : ColMap)
    (dataRows : List (List String)) : List (Nat × List Rec) :=
  (groupBySeason ((masterRows url cm mInit dataRows).map Prod.fst)).map
    (fun p => (p.1, sortedDedupe p.2))

/-! ## `fetch_episodes_by_season` (lines 956-984)

The network is abstracted: `master` is the already-parsed consolidated
result and `fallback sn` is what `_parse_season_page_for_episodes`
returns for season `sn` (always of `sortedDedupe` shape, lines 833-846 /
765-778). -/

/-- Season-keyed association lookup (`key in episodes_by_season`). -/
def assocFindS (k : Nat) : List (Nat × List Rec) → Option (List Rec)
  | [] => none
  | p :: rest => if p.1 = k then some p.2 else assocFindS k rest

/-- Dict assignment `episodes_by_season[key] = v`. -/
def assocSetS (k : Nat) (v : List Rec) : List (Nat × List Rec) →
    List (Nat × List Rec)
  | [] => [(k, v)]
  | p :: rest => if p.1 = k then (k, v) :: rest else p :: assocSetS k v rest

/-- One sweep iteration (lines 968-979): a season already present with a
non-empty master list is re-sorted in place; otherwise the fallback
result, when non-empty, is sorted and stored. -/
def sweepStep (fallback : Nat → List Rec) (ebs : List (Nat × List Rec))
    (sn : Nat) : List (Nat × List Rec) :=
  match assocFindS sn ebs with
  | some l =>
    if l ≠ [] then assocSetS sn (sortByEp l) ebs
    else
      let eps := fallback sn
      if eps = [] then ebs else assocSetS sn (sortByEp eps) ebs
  | none =>
    let eps := fallback sn
    if eps = [] then ebs else assocSetS sn (sortByEp eps) ebs

/-- The `fetch_episodes_by_season` (lines 956-984): start from the master
result, sweep each season number in the configured range, and finally
drop keys whose list ended up empty. -/
def fetchEpisodesBySeason (master : List (Nat × List Rec))
    (fallback : Nat → List Rec) (minS maxS : Nat) : List (Nat × List Rec) :=
  (((List.range' minS (maxS + 1 - minS)).foldl (sweepStep fallback) master).filter
    (fun p => p.2 ≠ []))

/-! ## Enrichment (`enrich_episode_details`, lines 1123-1163)

The network-facing pieces are abstracted: `links sn` is what
`_season_episode_links sn` returns and `fetch title` is what
`_episode_details_from_page title` returns.  The per-season episode keys
of the input dictionary are unique (it is a Python `dict`), so the
`(season, episode)` index resolves into each season's own list. -/

/-- The dict returned by `_episode_details_from_page` (lines 1109-1114). -/
structure Details where
  source_url : Option String := none
  immunity_winners : List String := []
  eliminated : List String := []
  advantage_events : List (String × String) := []
deriving DecidableEq

/-- The four conditional key assignments of lines 1154-1161. -/
def applyDetails (d : Details) (rec : Rec) : Rec :=
  let r1 := if truthy d.source_url then
    { rec with episode_page_url := d.source_url } else rec
  let r2 := if d.immunity_winners ≠ [] then
    { r1 with immunity_winners := some d.immunity_winners } else r1
  let r3 := if d.eliminated ≠ [] then
    { r2 with eliminated := some d.eliminated } else r2
  if d.advantage_events ≠ [] then
    { r3 with advantage_events := some d.advantage_events } else r3

/-- Index lookup `index[sn].get(ep_in)` (lines 1130-1134): the position of
the *last* record with the given episode number (later dict writes win). -/
def lastIdxWithEp (eps : List Rec) (epn : Nat) : Option Nat :=
  ((eps.zip (List.range eps.length)).filter
    (fun p => p.1.episode_in_season = epn)).getLast?.map Prod.snd

/-- Apply `f` to the element at index `i`. -/
def modifyAt (f : Rec → Rec) : List Rec → Nat → List Rec
  | [], _ => []
  | r :: rs, 0 => f r :: rs
  | r :: rs, n + 1 => r :: modifyAt f rs n

/-- One link iteration (lines 1146-1161): find the indexed record; skip it
unless its air date re-validates; otherwise merge in the fetched details. -/
def enrichOne (fetch : String → Details) (epIn : Nat) (pageTitle : String)
    (eps : List Rec) : List Rec :=
  match lastIdxWithEp eps epIn with
  | none => eps
  | some i =>
    modifyAt
      (fun rec =>
        if (cleanAirDate rec.air_date).isSome then
          applyDetails (fetch pageTitle) rec
        else rec)
      eps i

/-- The links loop for one season. -/
def enrichSeason (fetch : String → Details) (links : List (Nat × String))
    (eps : List Rec) : List Rec :=
  links.foldl (fun eps p => enrichOne fetch p.1 p.2 eps) eps

/-- The `enrich_episode_details` (lines 1123-1163). -/
def enrichEpisodeDetails (fetch : String → Details)
    (links : Nat → List (Nat × String)) (ebs : List (Nat × List Rec)) :
    List (Nat × List Rec) :=
  ebs.map (fun p =>
    if links p.1 = [] then p
    else (p.1, enrichSeason fetch (links p.1) p.2))

/-- The core (non-enrichment) fields of a record, in source order
(lines 552-561): everything except `episode_page_url`,
`immunity_winners`, `eliminated` and `advantage_events`. -/
def coreOf (r : Rec) : Nat × Option String × Nat × Option Nat ×
    Option String × Option String × Option String × Option String ×
    Option String :=
  (r.season_number, r.season_label, r.episode_in_season,
   r.overall_episode_number, r.title, r.air_date, r.episode_type,
   r.us_viewers_millions, r.source_url)

/-! ## Auxiliary predicates and concrete witness data -/

/-- Strict ascending episode-number order (captures both "at most one
record per `episode_in_season`" and "sorted ascending"). -/
def strictEp (l : List Rec) : Prop :=
  l.Pairwise (fun a b => a.episode_in_season < b.episode_in_season)

/-- A data row that lets a pending row-span obligation at column `c` be
consumed: the row is emitted (not skipped), every cell's parsed
column-span is 1 (no overlap can swallow column `c`), and it has at least
`c` cells (the builder cannot run out before reaching column `c`). -/
def conformTr (c : Nat) (tr : TrNode) : Prop :=
  skipTr tr = false ∧ (∀ cell ∈ tr.cells, parseSpan cell.colspan = 1) ∧
    c ≤ tr.cells.length

instance (c : Nat) (tr : TrNode) : Decidable (conformTr c tr) := by
  unfold conformTr
  infer_instance

/-- Header row of the C1 witness table: three columns (`A` spans two). -/
def w1Header : TrNode :=
  { cells := [{ isHeader := true, text := "A", colspan := some "2" },
              { isHeader := true, text := "B" }] }

/-- Data rows of the C1 witness table: an over-wide colspan cell with a
row-span carry, then an under-full row. -/
def w1Rest : List TrNode :=
  [{ cells := [{ isHeader := false, text := "X", colspan := some "9",
                 rowspan := some "2" }] },
   { cells := [{ isHeader := false, text := "Y" }] }]

/-- The C1 witness table: a decorative header-free row, then the header,
then the data rows. -/
def w1Table : List TrNode :=
  { cells := [{ isHeader := false, text := "decor" }] } :: w1Header :: w1Rest

/-- C6 counterexample table: a two-column table whose second data row
covers both columns with a `colspan="2"` cell, displacing the row-span
obligation of the `Y` cell. -/
def c6Table : List TrNode :=
  [{ cells := [{ isHeader := true, text := "A" },
               { isHeader := true, text := "B" }] },
   { cells := [{ isHeader := false, text := "X" },
               { isHeader := false, text := "Y", rowspan := some "3" }] },
   { cells := [{ isHeader := false, text := "Z", colspan := some "2" }] },
   { cells := [{ isHeader := false, text := "W" }] },
   { cells := [{ isHeader := false, text := "V" }] }]

/-- C6 witness header: two plain columns. -/
def w6Header : TrNode :=
  { cells := [{ isHeader := true, text := "A" },
              { isHeader := true, text := "B" }] }

/-- C6 witness first data row: `Y` carries `rowspan="3"` in column 1. -/
def w6Tr0 : TrNode :=
  { cells := [{ isHeader := false, text := "X" },
              { isHeader := false, text := "Y", rowspan := some "3" }] }

/-- C6 witness following rows: single-cell rows that reach column 1
through the pending table. -/
def w6Rest : List TrNode :=
  [{ cells := [{ isHeader := false, text := "Z" }] },
   { cells := [{ isHeader := false, text := "W" }] }]

/-- C6 witness table. -/
def w6Table : List TrNode := w6Header :: w6Tr0 :: w6Rest

/-- C7 witness column map: season in column 0, title in column 1,
in-season number in column 2. -/
def w7Cm : ColMap := { season := 0, title := 1, in_season := some 2 }

/-- C7 witness matrix data rows: an explicit episode number 5, then a row
with no episode number. -/
def w7Rows : List (List String) := [["1", "Alpha", "5"], ["", "Beta", ""]]

/-- The record emitted for the first C7 witness row. -/
def w7Rec1 : Rec :=
  { season_number := 1, season_label := some "1", episode_in_season := 5,
    title := some "Alpha" }

/-- The record emitted for the second C7 witness row (inferred number 6). -/
def w7Rec2 : Rec :=
  { season_number := 1, season_label := some "1", episode_in_season := 6,
    title := some "Beta" }

/-- C10 witness column map. -/
def w10Cm : ColMap := { season := 0, title := 1, in_season := some 2 }

/-- C10 witness matrix data rows: duplicate episode keys in season 1. -/
def w10Rows : List (List String) :=
  [["1", "Alpha", "2"], ["", "Beta", "1"], ["", "Gamma", "2"]]

/-- C2 concrete record A: title present, air date absent. -/
def c2RecA : Rec :=
  { season_number := 1, episode_in_season := 1, title := some "Pilot" }

/-- C2 concrete record B: air date present, title absent. -/
def c2RecB : Rec :=
  { season_number := 1, episode_in_season := 1,
    air_date := some "September 24, 2000" }

/-- C3 concrete base record: title populated, air date absent. -/
def c3Base : Rec :=
  { season_number := 2, episode_in_season := 3, title := some "Kept" }

/-- C3 concrete challenger: both title and air date populated. -/
def c3Chal : Rec :=
  { season_number := 2, episode_in_season := 3, title := some "Usurper",
    air_date := some "October 1, 2000" }

/-- C3 witness base record: both fields populated. -/
def c3FullBase : Rec :=
  { season_number := 2, episode_in_season := 3, title := some "Kept",
    air_date := some "October 1, 2000" }

/-- C3 witness challenger. -/
def c3Chal2 : Rec :=
  { season_number := 2, episode_in_season := 3, title := some "Usurper",
    air_date := some "October 8, 2000" }

end Survivor

namespace Survivor

/-! ## Theorems -/

/-- C4 counterexample: the span attribute string `"60"` has first embedded
integer 60, greater than the hard cap 50, yet `_parse_span` returns the
clamped cap 50 and not the default 1. -/
theorem c4_counterexample :
    firstIntToken "60" = some 60 ∧ 50 < 60 ∧
      parseSpan (some "60") 1 50 = 50 ∧ parseSpan (some "60") 1 50 ≠ 1 := by
  decide

/-- C4 (amended): for every span attribute string whose first embedded
integer is greater than the hard cap, `_parse_span` returns the hard cap
(the value is clamped to `[1, hard_cap]`), not the default. -/
theorem c4_amended (s : String) (n : Nat) (h1 : firstIntToken s = some n)
    (h2 : 50 < n) : parseSpan (some s) 1 50 = 50 := by
  have hs : s ≠ "" := by
    intro he
    rw [he] at h1
    simp [firstIntToken, firstDigitRun] at h1
  unfold parseSpan
  simp only [if_neg hs, h1]
  rw [Nat.min_eq_right (Nat.le_of_lt h2)]
  decide

/-- C4 witness: the amended statement instantiated at `"60"`. -/
theorem c4_witness :
    firstIntToken "60" = some 60 ∧ 50 < 60 ∧ parseSpan (some "60") 1 50 = 50 :=
  ⟨by decide, by decide, c4_amended "60" 60 (by decide) (by decide)⟩

/-- C8: the air-date validator accepts `"September 24, 2000"` (which the
cleaner returns unchanged) and rejects `"—"`, `"TBD"`, `"9/24/2000"` and
`""`; moreover `_clean_air_date` is total — every candidate either becomes
`none` or a string satisfying the validator, never an error. -/
theorem c8_air_date_validation :
    (isValidAirDateStr "September 24, 2000" = true ∧
      cleanAirDateStr "September 24, 2000" = some "September 24, 2000") ∧
    (isValidAirDateStr "—" = false ∧ cleanAirDateStr "—" = none) ∧
    (isValidAirDateStr "TBD" = false ∧ cleanAirDateStr "TBD" = none) ∧
    (isValidAirDateStr "9/24/2000" = false ∧ cleanAirDateStr "9/24/2000" = none) ∧
    (isValidAirDateStr "" = false ∧ cleanAirDateStr "" = none) ∧
    (∀ s : String, cleanAirDateStr s = none ∨
      ∃ t, cleanAirDateStr s = some t ∧ isValidAirDateStr t = true) := by
  refine ⟨by decide, by decide, by decide, by decide, by decide, ?_⟩
  intro s
  unfold cleanAirDateStr
  split
  · exact Or.inl rfl
  · dsimp only
    split
    · next h => exact Or.inr ⟨_, rfl, h⟩
    · exact Or.inl rfl

/-- Keys of the season-name map contain no digits, so the exact-title
lookup and the numeric-token scan can never both succeed on one label. -/
theorem assocFind_key_no_digit (t : String) (m : Nat)
    (l : List (String × Nat))
    (hl : l.all (fun p => (firstIntToken p.1).isNone) = true)
    (h : assocFind t l = some m) : firstIntToken t = none := by
  induction l with
  | nil => simp [assocFind] at h
  | cons p rest ih =>
    simp only [List.all_cons, Bool.and_eq_true] at hl
    unfold assocFind at h
    by_cases he : p.1 = t
    · rw [← he]
      exact Option.eq_none_iff_forall_not_mem.mpr
        (fun a ha => by simp [Option.isNone_iff_eq_none.mp hl.1] at ha)
    · rw [if_neg he] at h
      exact ih hl.2 h

/-- C5: season-label resolution behaves exactly as the specification's
order describes — resolving through the season-title lookup first and
falling back to a bare numeric token only when the lookup fails.  (The
source scans for the numeric token first, but no key of the title map
contains a digit, so the two orders agree on every label; this resolver is
what the consolidated-table loop at lines 516-521 applies to a non-empty
season cell.) -/
theorem c5_resolution_order (label : String) :
    seasonNumberFromCell label = seasonNumberFromCellSpecOrder label := by
  unfold seasonNumberFromCell seasonNumberFromCellSpecOrder
  cases hnum : firstIntToken (pyStrip label) with
  | none =>
    cases hfind : assocFind (pyStrip label) seasonNameMap <;> simp [hfind, hnum]
  | some n =>
    cases hfind : assocFind (pyStrip label) seasonNameMap with
    | none => simp [hfind, hnum]
    | some m =>
      have := assocFind_key_no_digit (pyStrip label) m seasonNameMap (by decide) hfind
      rw [this] at hnum
      cases hnum

/-- C2 counterexample: merging record A (title present, air date absent)
with record B (air date present, title absent) is order-dependent — each
order yields the challenger wholesale — and in neither order are both
fields populated. -/
theorem c2_counterexample :
    mergeStep c2RecA c2RecB = c2RecB ∧ mergeStep c2RecB c2RecA = c2RecA ∧
    mergeStep c2RecA c2RecB ≠ mergeStep c2RecB c2RecA ∧
    ¬(truthy (mergeStep c2RecA c2RecB).title = true ∧
      truthy (mergeStep c2RecA c2RecB).air_date = true) ∧
    ¬(truthy (mergeStep c2RecB c2RecA).title = true ∧
      truthy (mergeStep c2RecB c2RecA).air_date = true) := by
  decide

/-- C2 (amended): reconciliation of such a pair is *not* commutative —
whichever record arrives second wins wholesale, because it supplies a
field the incumbent lacks.  The identity key is unchanged (the result is
one of the two input records), but title and air date are never both
populated. -/
theorem c2_amended (A B : Rec) (hAt : truthy A.title = true)
    (hAd : truthy A.air_date = false) (hBd : truthy B.air_date = true)
    (hBt : truthy B.title = false) :
    mergeStep A B = B ∧ mergeStep B A = A := by
  unfold mergeStep betterRec
  rw [hAt, hAd, hBd, hBt]
  simp

/-- C2 witness: the amended statement at a concrete pair. -/
theorem c2_amended_witness :
    mergeStep c2RecA c2RecB = c2RecB ∧ mergeStep c2RecB c2RecA = c2RecA :=
  c2_amended c2RecA c2RecB (by decide) (by decide) (by decide) (by decide)

/-- C3 counterexample: a base record with a populated title loses it when
the challenger supplies an air date the base lacks — the challenger
replaces the record wholesale, overwriting the populated title. -/
theorem c3_counterexample :
    truthy c3Base.title = true ∧
    (mergeStep c3Base c3Chal).title = some "Usurper" ∧
    (mergeStep c3Base c3Chal).title ≠ c3Base.title := by
  decide

/-- C3 (amended): reconciliation keeps the first record unless the
challenger has an air date or a title the base lacks, in which case the
challenger replaces the base record *wholesale* (no field-wise merge).
Consequently the result is always one of the two records, and a base
record with both title and air date populated is never replaced — but a
single populated field of a partially-complete base can be overwritten. -/
theorem c3_amended (base chal : Rec) :
    (mergeStep base chal = base ∨ mergeStep base chal = chal) ∧
    (truthy base.title = true → truthy base.air_date = true →
      mergeStep base chal = base) ∧
    (betterRec chal base = false → mergeStep base chal = base) := by
  refine ⟨?_, ?_, ?_⟩
  · unfold mergeStep
    split
    · exact Or.inr rfl
    · exact Or.inl rfl
  · intro ht hd
    unfold mergeStep betterRec
    rw [ht, hd]
    simp
  · intro h
    unfold mergeStep
    rw [h]
    simp

/-- C3 witness: a fully populated base survives any challenger. -/
theorem c3_amended_witness :
    mergeStep c3FullBase c3Chal2 = c3FullBase :=
  (c3_amended c3FullBase c3Chal2).2.1 (by decide) (by decide)

/-- The conditional detail assignments touch only enrichment keys. -/
theorem applyDetails_core (d : Details) (r : Rec) :
    coreOf (applyDetails d r) = coreOf r := by
  unfold applyDetails
  split_ifs <;> rfl

/-- Applying `modifyAt` with a core-preserving update preserves all core fields. -/
theorem modifyAt_map_core (f : Rec → Rec) (hf : ∀ r, coreOf (f r) = coreOf r) :
    ∀ (l : List Rec) (i : Nat), (modifyAt f l i).map coreOf = l.map coreOf := by
  intro l
  induction l with
  | nil => intro i; rfl
  | cons r rs ih =>
    intro i
    cases i with
    | zero => simp [modifyAt, hf r]
    | succ n => simp [modifyAt, ih n]

/-- A single link iteration preserves all core fields. -/
theorem enrichOne_map_core (fetch : String → Details) (epIn : Nat)
    (pageTitle : String) (eps : List Rec) :
    (enrichOne fetch epIn pageTitle eps).map coreOf = eps.map coreOf := by
  unfold enrichOne
  cases lastIdxWithEp eps epIn with
  | none => rfl
  | some i =>
    exact modifyAt_map_core _
      (fun r => by
        split
        · exact applyDetails_core _ r
        · rfl)
      eps i

/-- The links loop preserves all core fields. -/
theorem enrichSeason_map_core (fetch : String → Details)
    (links : List (Nat × String)) :
    ∀ eps : List Rec,
      (enrichSeason fetch links eps).map coreOf = eps.map coreOf := by
  induction links with
  | nil => intro eps; rfl
  | cons p rest ih =>
    intro eps
    unfold enrichSeason at ih ⊢
    simp only [List.foldl_cons]
    rw [ih, enrichOne_map_core]

/-- C9: the enrichment pass only adds enrichment fields — for every input
record, the core fields (season number, episode numbers, title, air date,
episode type, viewers, source URL, season label) are unchanged by
`enrich_episode_details`; the season keys and per-season record order are
also untouched. -/
theorem c9_enrichment_frame (fetch : String → Details)
    (links : Nat → List (Nat × String)) (ebs : List (Nat × List Rec)) :
    (enrichEpisodeDetails fetch links ebs).map
        (fun p => (p.1, p.2.map coreOf)) =
      ebs.map (fun p => (p.1, p.2.map coreOf)) := by
  unfold enrichEpisodeDetails
  induction ebs with
  | nil => rfl
  | cons p rest ih =>
    simp only [List.map_cons, ih]
    congr 1
    split
    · rfl
    · simp [enrichSeason_map_core]

/-- The row builder emits one text cell per pending slot and returns a
pending table of the same width. -/
theorem goRow_len (ps : List Slot) :
    ∀ (carry : Option (String × Nat × Nat)) (cs : List Cell),
      (goRow ps carry cs).1.length = ps.length ∧
      (goRow ps carry cs).2.length = ps.length := by
  induction ps with
  | nil =>
    intro carry cs
    cases carry <;> simp [goRow]
  | cons sl ps ih =>
    intro carry cs
    cases carry with
    | some c =>
      obtain ⟨t, cl, rs⟩ := c
      simp [goRow, (ih _ cs).1, (ih _ cs).2]
    | none =>
      cases sl with
      | some v =>
        obtain ⟨tx, rem⟩ := v
        simp [goRow, (ih none cs).1, (ih none cs).2]
      | none =>
        cases cs with
        | nil => simp [goRow]
        | cons c rest =>
          simp [goRow, (ih _ rest).1, (ih _ rest).2]

/-- Padding/truncation always yields exactly `n` cells. -/
theorem padTrunc_len (n : Nat) (row : List String) :
    (padTrunc n row).length = n := by
  unfold padTrunc
  split
  · next h => simp; omega
  · next h => simp; omega

/-- Every row emitted by the body loop has the header width. -/
theorem processRows_len (numCols : Nat) :
    ∀ (trs : List TrNode) (pending : List Slot),
      ∀ row ∈ processRows numCols pending trs, row.length = numCols := by
  intro trs
  induction trs with
  | nil => intro pending row hrow; cases hrow
  | cons tr rest ih =>
    intro pending row hrow
    unfold processRows at hrow
    split at hrow
    · exact ih pending row hrow
    · rcases List.mem_cons.mp hrow with h | h
      · rw [h]
        exact padTrunc_len _ _
      · exact ih _ row h

/-- C1: for every input table that has a header row, every row of the
matrix produced by `_normalize_table_rows` — the expanded header row
included — has length exactly the header-derived column count (the sum of
the header cells' clamped column spans); wider rows are truncated and
shorter rows are right-padded with empty strings by `padTrunc`. -/
theorem c1_rectangular (rows : List TrNode) (header : TrNode)
    (rest : List TrNode) (h : findHeader rows = some (header, rest)) :
    ∀ row ∈ normalizeTableRows rows, row.length = numColsOf header := by
  intro row hrow
  unfold normalizeTableRows at hrow
  rw [h] at hrow
  rcases List.mem_cons.mp hrow with h1 | h1
  · rw [h1]
    exact padTrunc_len _ _
  · exact processRows_len _ _ _ row h1

/-- C1 witness: the ragged concrete table normalizes to all-width-3 rows. -/
theorem c1_witness :
    findHeader w1Table = some (w1Header, w1Rest) ∧
    ∀ row ∈ normalizeTableRows w1Table, row.length = numColsOf w1Header :=
  ⟨by decide, c1_rectangular w1Table w1Header w1Rest (by decide)⟩

/-- Padding/truncation is the identity on a row of exactly `n` cells. -/
theorem padTrunc_id (n : Nat) (l : List String) (h : l.length = n) :
    padTrunc n l = l := by
  unfold padTrunc
  rw [if_neg (by omega), ← h, List.take_length]

/-- Index arithmetic helper: position `1 + i` of a cons list. -/
theorem get?_cons_one_add {α : Type} (a : α) (l : List α) (i : Nat) :
    (a :: l).get? (1 + i) = l.get? i := by
  rw [Nat.add_comm 1 i, List.get?_cons_succ]

/-- A pending row-span obligation at column `c` is consumed by the row
builder — the column receives the pending text and the slot's remaining
count decreases — provided every cell of the row has column-span 1 and
the row has at least `c` cells. -/
theorem goRow_consume_pending :
    ∀ (c : Nat) (ps : List Slot) (cs : List Cell) (t : String) (k : Nat),
      ps.get? c = some (some (t, k)) →
      (∀ cell ∈ cs, parseSpan cell.colspan = 1) →
      c ≤ cs.length →
      (goRow ps none cs).1.get? c = some t ∧
      (goRow ps none cs).2.get? c =
        some (if k - 1 > 0 then some (t, k - 1) else none) := by
  intro c
  induction c with
  | zero =>
    intro ps cs t k hp _ _
    cases ps with
    | nil => cases hp
    | cons sl ps =>
      have hsl : sl = some (t, k) := by simpa using hp
      subst hsl
      simp [goRow]
  | succ c ih =>
    intro ps cs t k hp hcol hlen
    cases ps with
    | nil => cases hp
    | cons sl ps =>
      have hp' : ps.get? c = some (some (t, k)) := by simpa using hp
      cases sl with
      | some v =>
        obtain ⟨tx, rem⟩ := v
        have hrec := ih ps cs t k hp' hcol (Nat.le_trans (Nat.le_succ c) hlen)
        refine ⟨?_, ?_⟩
        · simpa [goRow] using hrec.1
        · simpa [goRow] using hrec.2
      | none =>
        cases cs with
        | nil =>
          exact absurd hlen (by simp)
        | cons c0 rest =>
          have hc0 : parseSpan c0.colspan = 1 := hcol c0 (List.mem_cons_self _ _)
          have hm : min (1 : Nat) (ps.length + 1) = 1 := by omega
          have hrest : ∀ cell ∈ rest, parseSpan cell.colspan = 1 :=
            fun cell hcm => hcol cell (List.mem_cons_of_mem _ hcm)
          have hlen' : c ≤ rest.length := by
            simp only [List.length_cons] at hlen
            omega
          have hrec := ih ps rest t k hp' hrest hlen'
          refine ⟨?_, ?_⟩
          · simpa [goRow, hc0, hm] using hrec.1
          · simpa [goRow, hc0, hm] using hrec.2

/-- A cell of a row whose cells all have column-span 1 is written at its
own index `j` when the first `j + 1` pending slots are empty, and its
row-span obligation is recorded there. -/
theorem goRow_write_cell :
    ∀ (j : Nat) (ps : List Slot) (cs : List Cell) (cell : Cell),
      (∀ i, i ≤ j → ps.get? i = some none) →
      (∀ cl ∈ cs, parseSpan cl.colspan = 1) →
      cs.get? j = some cell →
      (goRow ps none cs).1.get? j = some cell.text ∧
      (goRow ps none cs).2.get? j =
        some (newSlotFor cell.text (parseSpan cell.rowspan) none) := by
  intro j
  induction j with
  | zero =>
    intro ps cs cell hps hcol hcell
    cases ps with
    | nil => cases hps 0 (Nat.le_refl 0)
    | cons sl ps =>
      have hsl : sl = none := by simpa using hps 0 (Nat.le_refl 0)
      subst hsl
      cases cs with
      | nil => cases hcell
      | cons c0 rest =>
        have hc0 : c0 = cell := by simpa using hcell
        subst hc0
        have h1 : parseSpan c0.colspan = 1 := hcol c0 (List.mem_cons_self _ _)
        have hm : min (1 : Nat) (ps.length + 1) = 1 := by omega
        simp [goRow, h1, hm]
  | succ j ih =>
    intro ps cs cell hps hcol hcell
    cases ps with
    | nil => cases hps 0 (by omega)
    | cons sl ps =>
      have hsl : sl = none := by simpa using hps 0 (by omega)
      subst hsl
      cases cs with
      | nil => cases hcell
      | cons c0 rest =>
        have h1 : parseSpan c0.colspan = 1 := hcol c0 (List.mem_cons_self _ _)
        have hm : min (1 : Nat) (ps.length + 1) = 1 := by omega
        have hps' : ∀ i, i ≤ j → ps.get? i = some none := fun i hi => by
          simpa using hps (i + 1) (by omega)
        have hrest : ∀ cl ∈ rest, parseSpan cl.colspan = 1 :=
          fun cl hcm => hcol cl (List.mem_cons_of_mem _ hcm)
        have hcell' : rest.get? j = some cell := by simpa using hcell
        have hrec := ih ps rest cell hps' hrest hcell'
        refine ⟨?_, ?_⟩
        · simpa [goRow, h1, hm] using hrec.1
        · simpa [goRow, h1, hm] using hrec.2

/-- A pending obligation `(t, n)` at column `c` feeds column `c` of the
next `n` emitted rows, as long as each of those rows conforms
(`conformTr`). -/
theorem processRows_propagate (numCols : Nat) (c : Nat) (t : String) :
    ∀ (n : Nat) (pending : List Slot) (trs : List TrNode),
      pending.length = numCols →
      pending.get? c = some (some (t, n)) →
      (∀ i tr, i < n → trs.get? i = some tr → conformTr c tr) →
      n ≤ trs.length →
      ∀ i, i < n →
        ((processRows numCols pending trs).get? i).bind
          (fun r => r.get? c) = some t := by
  intro n
  induction n with
  | zero => intro _ _ _ _ _ _ i hi; omega
  | succ n ih =>
    intro pending trs hplen hp hconf hlen i hi
    cases trs with
    | nil => simp at hlen
    | cons tr rest =>
      obtain ⟨hskip, hcols, hclen⟩ := hconf 0 tr (by omega) rfl
      have hrow := goRow_consume_pending c pending tr.cells t (n + 1) hp hcols hclen
      have hlen1 : (goRow pending none tr.cells).1.length = numCols := by
        rw [(goRow_len pending none tr.cells).1, hplen]
      unfold processRows
      rw [if_neg (by simp [hskip])]
      cases i with
      | zero =>
        simp only [buildRowFromTr, List.get?_cons_zero, Option.bind_some,
          Option.some_bind]
        rw [padTrunc_id _ _ hlen1, hrow.1]
      | succ i' =>
        have hn : 0 < n := by omega
        have hp' : (goRow pending none tr.cells).2.get? c = some (some (t, n)) := by
          rw [hrow.2, if_pos (by omega)]
          simp
        have hgoal := ih (goRow pending none tr.cells).2 rest
          (by rw [(goRow_len pending none tr.cells).2, hplen])
          hp'
          (fun i2 tr2 hi2 hg2 => hconf (i2 + 1) tr2 (by omega) (by simpa using hg2))
          (by simp only [List.length_cons] at hlen; omega)
          i' (by omega)
        simpa [buildRowFromTr] using hgoal

/-- C6 counterexample: in the concrete table `c6Table` the cell `Y`
carries parsed row-span 3 (within the clamp) and is emitted at row 1,
column 1 of the matrix, yet the first following emitted row holds `Z` at
column 1 — the overlapping `colspan="2"` cell displaces the obligation,
which resurfaces in rows 3 and 4 instead. -/
theorem c6_counterexample :
    parseSpan (some "3") 1 50 = 3 ∧
    normalizeTableRows c6Table =
      [["A", "B"], ["X", "Y"], ["Z", "Z"], ["W", "Y"], ["V", "Y"]] ∧
    ((normalizeTableRows c6Table).get? 2).bind (fun r => r.get? 1) =
      some "Z" ∧ ¬ (some "Z" = some "Y") := by
  refine ⟨by decide, by decide, by decide, by decide⟩

/-- C6 (amended): a data cell with parsed row-span `N ≥ 2` written at its
own column `j` of an emitted row propagates unchanged into column `j` of
the following `N − 1` emitted rows *provided* the writing row's cells all
have column-span 1 and each following row conforms: it is emitted, has
only column-span-1 cells (no overlap across column `j`), and supplies at
least `j` cells (so the builder reaches column `j` through the pending
table).  Rows violating these provisos can displace the obligation to
later rows, as the counterexample shows. -/
theorem c6_amended (rows : List TrNode) (header tr0 : TrNode)
    (trs : List TrNode) (j : Nat) (cell : Cell) (N : Nat)
    (hfind : findHeader rows = some (header, tr0 :: trs))
    (hskip0 : skipTr tr0 = false)
    (hcol0 : ∀ cl ∈ tr0.cells, parseSpan cl.colspan = 1)
    (hcell : tr0.cells.get? j = some cell)
    (hj : j < numColsOf header)
    (hN : parseSpan cell.rowspan = N) (hN2 : 2 ≤ N)
    (hconf : (trs.take (N - 1)).Forall (conformTr j))
    (hlen : N - 1 ≤ trs.length) :
    ∀ i, i ≤ N - 1 →
      ((normalizeTableRows rows).get? (1 + i)).bind (fun r => r.get? j) =
        some cell.text := by
  intro i hi
  unfold normalizeTableRows
  rw [hfind]
  have hpend0 : ∀ i2, i2 ≤ j →
      (List.replicate (numColsOf header) (none : Slot)).get? i2 = some none := by
    intro i2 hi2
    rw [List.get?_eq_get (by simpa using Nat.lt_of_le_of_lt hi2 hj)]
    simp
  have hwrite := goRow_write_cell j
    (List.replicate (numColsOf header) (none : Slot)) tr0.cells cell
    hpend0 hcol0 hcell
  have hlen0 : (goRow (List.replicate (numColsOf header) none) none
      tr0.cells).1.length = numColsOf header := by
    rw [(goRow_len _ _ _).1, List.length_replicate]
  have hconf' : ∀ i2 tr2, i2 < N - 1 → trs.get? i2 = some tr2 →
      conformTr j tr2 := by
    intro i2 tr2 hi2 hg
    have hmem : tr2 ∈ trs.take (N - 1) := by
      apply List.get?_mem (n := i2)
      rw [List.get?_eq_getElem?, List.getElem?_take_of_lt hi2,
        ← List.get?_eq_getElem?]
      exact hg
    exact (List.forall_iff_forall_mem.mp hconf) tr2 hmem
  have hslot : (goRow (List.replicate (numColsOf header) none) none
      tr0.cells).2.get? j = some (some (cell.text, N - 1)) := by
    rw [hwrite.2]
    unfold newSlotFor
    rw [hN, if_pos (by omega)]
  have hprop := processRows_propagate (numColsOf header) j cell.text
    (N - 1)
    (goRow (List.replicate (numColsOf header) none) none tr0.cells).2 trs
    (by rw [(goRow_len _ _ _).2, List.length_replicate])
    hslot hconf' hlen
  rw [get?_cons_one_add]
  unfold processRows
  rw [if_neg (by simp [hskip0])]
  cases i with
  | zero =>
    simp only [buildRowFromTr, List.get?_cons_zero, Option.some_bind]
    rw [padTrunc_id _ _ hlen0, hwrite.1]
  | succ i' =>
    rw [List.get?_cons_succ]
    simpa [buildRowFromTr] using hprop i' (by omega)

/-- C6 witness: in `w6Table` the `Y` cell (row-span 3) appears at column 1
of rows 1, 2 and 3 — every following row conforms. -/
theorem c6_witness :
    (((normalizeTableRows w6Table).get? 1).bind (fun r => r.get? 1) =
      some "Y") ∧
    (((normalizeTableRows w6Table).get? 2).bind (fun r => r.get? 1) =
      some "Y") ∧
    (((normalizeTableRows w6Table).get? 3).bind (fun r => r.get? 1) =
      some "Y") :=
  ⟨c6_amended w6Table w6Header w6Tr0 w6Rest 1
    { isHeader := false, text := "Y", rowspan := some "3" } 3
    (by decide) (by decide) (by decide) (by decide) (by decide) (by decide)
    (by decide) (by decide) (by decide) 0 (by decide),
   c6_amended w6Table w6Header w6Tr0 w6Rest 1
    { isHeader := false, text := "Y", rowspan := some "3" } 3
    (by decide) (by decide) (by decide) (by decide) (by decide) (by decide)
    (by decide) (by decide) (by decide) 1 (by decide),
   c6_amended w6Table w6Header w6Tr0 w6Rest 1
    { isHeader := false, text := "Y", rowspan := some "3" } 3
    (by decide) (by decide) (by decide) (by decide) (by decide) (by decide)
    (by decide) (by decide) (by decide) 2 (by decide)⟩

/-- Writing with `cntSet` stores the value at its key. -/
theorem cntOf_cntSet_self (counters : List (Nat × Nat)) (sn v : Nat) :
    cntOf (cntSet sn v counters) sn = v := by
  induction counters with
  | nil => simp [cntSet, cntOf]
  | cons p rest ih =>
    unfold cntSet
    by_cases h : p.1 = sn
    · simp [cntOf, h]
    · rw [if_neg h]
      unfold cntOf
      rw [if_neg h]
      exact ih

/-- Writing with `cntSet` leaves other keys unchanged. -/
theorem cntOf_cntSet_other (counters : List (Nat × Nat)) (sn v k : Nat)
    (h : k ≠ sn) : cntOf (cntSet sn v counters) k = cntOf counters k := by
  induction counters with
  | nil =>
    unfold cntSet cntOf
    rw [if_neg (fun he => h he.symm)]
    rfl
  | cons p rest ih =>
    unfold cntSet
    by_cases hp : p.1 = sn
    · rw [if_pos hp]
      unfold cntOf
      rw [if_neg (fun he => h he.symm), if_neg (fun he => h (hp ▸ he).symm)]
    · rw [if_neg hp]
      unfold cntOf
      by_cases hk : p.1 = k
      · rw [if_pos hk, if_pos hk]
      · rw [if_neg hk, if_neg hk]
        exact ih

/-- The episode-number update never decreases any counter. -/
theorem counterUpdate_mono (counters : List (Nat × Nat)) (sn : Nat)
    (epIn? : Option Nat) (k : Nat) :
    cntOf counters k ≤ cntOf (counterUpdate counters sn epIn?).2.1 k := by
  unfold counterUpdate
  cases epIn? with
  | none =>
    by_cases h : k = sn
    · subst h
      simp only
      rw [cntOf_cntSet_self]
      omega
    · simp only
      rw [cntOf_cntSet_other _ _ _ _ h]
  | some v =>
    by_cases h : k = sn
    · subst h
      simp only
      rw [cntOf_cntSet_self]
      omega
    · simp only
      rw [cntOf_cntSet_other _ _ _ _ h]

/-- The episode number produced by the update is bounded by the updated
counter of its season. -/
theorem counterUpdate_le (counters : List (Nat × Nat)) (sn : Nat)
    (epIn? : Option Nat) :
    (counterUpdate counters sn epIn?).1 ≤
      cntOf (counterUpdate counters sn epIn?).2.1 sn := by
  unfold counterUpdate
  cases epIn? with
  | none =>
    simp only
    rw [cntOf_cntSet_self]
  | some v =>
    simp only
    rw [cntOf_cntSet_self]
    omega

/-- An inferred episode number is exactly one above the season's previous
counter value. -/
theorem counterUpdate_inferred (counters : List (Nat × Nat)) (sn : Nat)
    (epIn? : Option Nat) (h : (counterUpdate counters sn epIn?).2.2 = true) :
    (counterUpdate counters sn epIn?).1 = cntOf counters sn + 1 := by
  unfold counterUpdate at h ⊢
  cases epIn? with
  | none => rfl
  | some v => cases h

/-- Updating the season context does not touch the counters. -/
theorem seasonCtxUpdate_counters (cm : ColMap) (st : MCtx)
    (row : List String) : (seasonCtxUpdate cm st row).counters = st.counters := by
  unfold seasonCtxUpdate
  split <;> rfl

/-- The loop body never decreases any per-season counter. -/
theorem masterStepB_mono (url : Option String) (cm : ColMap) (st1 : MCtx)
    (row : List String) (k : Nat) :
    cntOf st1.counters k ≤ cntOf (masterStepB url cm st1 row).1.counters k := by
  unfold masterStepB
  split
  · exact Nat.le_refl _
  · split
    · exact Nat.le_refl _
    · exact counterUpdate_mono st1.counters _ _ k

/-- A record emitted by the loop body has its episode number bounded by
the updated counter of its season. -/
theorem masterStepB_emit_le (url : Option String) (cm : ColMap) (st1 : MCtx)
    (row : List String) (r : Rec) (b : Bool)
    (h : (masterStepB url cm st1 row).2 = some (r, b)) :
    r.episode_in_season ≤
      cntOf (masterStepB url cm st1 row).1.counters r.season_number := by
  unfold masterStepB at h ⊢
  revert h
  cases hseason : st1.curSeason with
  | none => intro h; cases h
  | some sn =>
    intro h
    dsimp only at h ⊢
    by_cases hc : (masterTitle cm row = "" && (masterAir cm row).isNone) = true
    · rw [if_pos hc] at h
      cases h
    · rw [if_neg hc] at h ⊢
      injection h with h1
      injection h1 with hr hb
      rw [← hr]
      exact counterUpdate_le st1.counters sn (masterEpIn cm row)

/-- A record whose episode number was inferred is numbered exactly one
above the season's previous counter value. -/
theorem masterStepB_emit_inferred (url : Option String) (cm : ColMap)
    (st1 : MCtx) (row : List String) (r : Rec)
    (h : (masterStepB url cm st1 row).2 = some (r, true)) :
    r.episode_in_season = cntOf st1.counters r.season_number + 1 := by
  unfold masterStepB at h
  revert h
  cases hseason : st1.curSeason with
  | none => intro h; cases h
  | some sn =>
    intro h
    dsimp only at h
    by_cases hc : (masterTitle cm row = "" && (masterAir cm row).isNone) = true
    · rw [if_pos hc] at h
      cases h
    · rw [if_neg hc] at h
      injection h with h1
      injection h1 with hr hb
      rw [← hr]
      exact counterUpdate_inferred st1.counters sn (masterEpIn cm row) hb

/-- One full loop iteration never decreases any per-season counter. -/
theorem masterStep_mono (url : Option String) (cm : ColMap) (st : MCtx)
    (row : List String) (k : Nat) :
    cntOf st.counters k ≤ cntOf (masterStep url cm st row).1.counters k := by
  unfold masterStep
  split
  · exact Nat.le_refl _
  · rw [← seasonCtxUpdate_counters cm st row]
    exact masterStepB_mono url cm _ row k

/-- Emission bound lifted to a full loop iteration. -/
theorem masterStep_emit_le (url : Option String) (cm : ColMap) (st : MCtx)
    (row : List String) (r : Rec) (b : Bool)
    (h : (masterStep url cm st row).2 = some (r, b)) :
    r.episode_in_season ≤
      cntOf (masterStep url cm st row).1.counters r.season_number := by
  unfold masterStep at h ⊢
  revert h
  split
  · intro h; cases h
  · intro h
    exact masterStepB_emit_le url cm _ row r b h

/-- Inferred-number characterization lifted to a full loop iteration. -/
theorem masterStep_emit_inferred (url : Option String) (cm : ColMap)
    (st : MCtx) (row : List String) (r : Rec)
    (h : (masterStep url cm st row).2 = some (r, true)) :
    r.episode_in_season = cntOf st.counters r.season_number + 1 := by
  unfold masterStep at h
  revert h
  split
  · intro h; cases h
  · intro h
    rw [← seasonCtxUpdate_counters cm st row]
    exact masterStepB_emit_inferred url cm _ row r h

/-- Every inferred record emitted from state `st` is numbered strictly
above the season's counter value in `st`. -/
theorem masterRows_inferred_gt (url : Option String) (cm : ColMap) :
    ∀ (rows : List (List String)) (st : MCtx) (r : Rec),
      (r, true) ∈ masterRows url cm st rows →
      cntOf st.counters r.season_number < r.episode_in_season := by
  intro rows
  induction rows with
  | nil => intro st r h; cases h
  | cons row rest ih =>
    intro st r h
    unfold masterRows at h
    revert h
    split
    · next st1 hstep =>
      intro h
      have hlt := ih st1 r h
      have hmono := masterStep_mono url cm st row r.season_number
      rw [hstep] at hmono
      simp only at hmono
      omega
    · next st1 rb hstep =>
      intro h
      rcases List.mem_cons.mp h with h1 | h1
      · have hr : (masterStep url cm st row).2 = some (r, true) := by
          rw [hstep, ← h1]
        have := masterStep_emit_inferred url cm st row r hr
        omega
      · have hlt := ih st1 r h1
        have hmono := masterStep_mono url cm st row r.season_number
        rw [hstep] at hmono
        simp only at hmono
        omega

/-- Positional version of the main C7 invariant, generalized over the
starting state. -/
theorem masterRows_inferred_gt_earlier (url : Option String) (cm : ColMap) :
    ∀ (rows : List (List String)) (st : MCtx) (i j : Nat) (ri rj : Rec)
      (bi : Bool),
      i < j →
      (masterRows url cm st rows).get? i = some (ri, bi) →
      (masterRows url cm st rows).get? j = some (rj, true) →
      ri.season_number = rj.season_number →
      ri.episode_in_season < rj.episode_in_season := by
  intro rows
  induction rows with
  | nil => intro st i j ri rj bi hij hi hj; cases hi
  | cons row rest ih =>
    intro st i j ri rj bi hij hi hj hsn
    unfold masterRows at hi hj
    revert hi hj
    split
    · next st1 hstep =>
      intro hi hj
      exact ih st1 i j ri rj bi hij hi hj hsn
    · next st1 rb hstep =>
      intro hi hj
      cases i with
      | zero =>
        cases j with
        | zero => omega
        | succ j' =>
          have hri : rb = (ri, bi) := by simpa using hi
          have hj' : (masterRows url cm st1 rest).get? j' = some (rj, true) := by
            simpa using hj
          have hmem : (rj, true) ∈ masterRows url cm st1 rest :=
            List.get?_mem hj'
          have hgt := masterRows_inferred_gt url cm rest st1 rj hmem
          have hle : ri.episode_in_season ≤
              cntOf st1.counters ri.season_number := by
            have h2 : (masterStep url cm st row).2 = some (ri, bi) := by
              rw [hstep, hri]
            have := masterStep_emit_le url cm st row ri bi h2
            rw [hstep] at this
            exact this
          rw [hsn] at hle
          omega
      | succ i' =>
        cases j with
        | zero => omega
        | succ j' =>
          have hi' : (masterRows url cm st1 rest).get? i' = some (ri, bi) := by
            simpa using hi
          have hj' : (masterRows url cm st1 rest).get? j' = some (rj, true) := by
            simpa using hj
          exact ih st1 i' j' ri rj bi (by omega) hi' hj' hsn

/-- C7: in the consolidated-table row loop, a record whose in-season
episode number was inferred from the per-season counter is numbered
strictly above every episode number (in particular every explicit one)
emitted in an earlier row for the same season — the counter is advanced
to at least each explicit value, so inferred numbers never collide with
previously seen explicit ones. -/
theorem c7_inferred_never_collides (url : Option String) (cm : ColMap)
    (rows : List (List String)) (i j : Nat) (ri rj : Rec) (bi : Bool)
    (hij : i < j)
    (hi : (masterRows url cm mInit rows).get? i = some (ri, bi))
    (_hbi : bi = false)
    (hj : (masterRows url cm mInit rows).get? j = some (rj, true))
    (hsn : ri.season_number = rj.season_number) :
    ri.episode_in_season < rj.episode_in_season :=
  masterRows_inferred_gt_earlier url cm rows mInit i j ri rj bi hij hi hj hsn

/-- C7 witness: an explicit episode number 5 followed by an inferred one,
which becomes 6. -/
theorem c7_witness :
    (masterRows none w7Cm mInit w7Rows).get? 0 = some (w7Rec1, false) ∧
    (masterRows none w7Cm mInit w7Rows).get? 1 = some (w7Rec2, true) ∧
    w7Rec1.episode_in_season < w7Rec2.episode_in_season :=
  ⟨by decide, by decide,
   c7_inferred_never_collides none w7Cm w7Rows 0 1 w7Rec1 w7Rec2 false
     (by decide) (by decide) rfl (by decide) (by decide)⟩

/-- In-place association update keeps the key list unchanged. -/
theorem assocUpdate_keys (k : Nat) (v : Rec) (l : List (Nat × Rec)) :
    (assocUpdate k v l).map Prod.fst = l.map Prod.fst := by
  induction l with
  | nil => rfl
  | cons p rest ih =>
    unfold assocUpdate
    by_cases h : p.1 = k
    · rw [if_pos h]
      simp [h]
    · rw [if_neg h]
      simp [ih]

/-- Members of an updated association list. -/
theorem assocUpdate_mem (k : Nat) (v : Rec) (l : List (Nat × Rec))
    (p : Nat × Rec) (h : p ∈ assocUpdate k v l) : p = (k, v) ∨ p ∈ l := by
  induction l with
  | nil => cases h
  | cons q rest ih =>
    unfold assocUpdate at h
    by_cases hq : q.1 = k
    · rw [if_pos hq] at h
      rcases List.mem_cons.mp h with h1 | h1
      · exact Or.inl h1
      · exact Or.inr (List.mem_cons_of_mem _ h1)
    · rw [if_neg hq] at h
      rcases List.mem_cons.mp h with h1 | h1
      · exact Or.inr (h1 ▸ List.mem_cons_self _ _)
      · rcases ih h1 with h2 | h2
        · exact Or.inl h2
        · exact Or.inr (List.mem_cons_of_mem _ h2)

/-- A failed lookup means the key is absent. -/
theorem assocFindN_none_not_mem (k : Nat) (l : List (Nat × Rec))
    (h : assocFindN k l = none) : k ∉ l.map Prod.fst := by
  induction l with
  | nil => simp
  | cons p rest ih =>
    unfold assocFindN at h
    by_cases hp : p.1 = k
    · rw [if_pos hp] at h
      cases h
    · rw [if_neg hp] at h
      simp only [List.map_cons, List.mem_cons]
      rintro (h1 | h1)
      · exact hp h1.symm
      · exact ih h h1

/-- One dedupe-insertion step preserves the `tmp` invariant: distinct
keys, and every stored record keyed by its own episode number. -/
theorem dedupeIns_inv (tmp : List (Nat × Rec)) (r : Rec)
    (h1 : (tmp.map Prod.fst).Nodup)
    (h2 : ∀ p ∈ tmp, p.2.episode_in_season = p.1) :
    ((dedupeIns tmp r).map Prod.fst).Nodup ∧
      ∀ p ∈ dedupeIns tmp r, p.2.episode_in_season = p.1 := by
  unfold dedupeIns
  cases hfind : assocFindN r.episode_in_season tmp with
  | none =>
    constructor
    · rw [List.map_append]
      rw [List.nodup_append]
      refine ⟨h1, List.nodup_singleton _, ?_⟩
      intro a ha hb
      simp only [List.map_cons, List.map_nil, List.mem_singleton] at hb
      exact assocFindN_none_not_mem _ _ hfind (hb ▸ ha)
    · intro p hp
      rcases List.mem_append.mp hp with hmem | hmem
      · exact h2 p hmem
      · simp only [List.mem_singleton] at hmem
        rw [hmem]
  | some old =>
    dsimp only
    split
    · constructor
      · rw [assocUpdate_keys]
        exact h1
      · intro p hp
        rcases assocUpdate_mem _ _ _ p hp with h3 | h3
        · rw [h3]
        · exact h2 p h3
    · exact ⟨h1, h2⟩

/-- The full dedupe table invariant. -/
theorem dedupeFold_inv (recs : List Rec) :
    ((dedupeFold recs).map Prod.fst).Nodup ∧
      ∀ p ∈ dedupeFold recs, p.2.episode_in_season = p.1 := by
  unfold dedupeFold
  suffices hgen : ∀ (tmp : List (Nat × Rec)),
      (tmp.map Prod.fst).Nodup → (∀ p ∈ tmp, p.2.episode_in_season = p.1) →
      ((recs.foldl dedupeIns tmp).map Prod.fst).Nodup ∧
        ∀ p ∈ recs.foldl dedupeIns tmp, p.2.episode_in_season = p.1 by
    exact hgen [] (by simp) (by simp)
  induction recs with
  | nil => intro tmp ha hb; exact ⟨ha, hb⟩
  | cons r rest ih =>
    intro tmp ha hb
    simp only [List.foldl_cons]
    obtain ⟨hc, hd⟩ := dedupeIns_inv tmp r ha hb
    exact ih _ hc hd

/-- When every stored record is keyed by its episode number, the episode
numbers of the values are exactly the keys. -/
theorem map_ep_eq_map_fst (l : List (Nat × Rec))
    (h : ∀ p ∈ l, p.2.episode_in_season = p.1) :
    (l.map Prod.snd).map (fun r => r.episode_in_season) = l.map Prod.fst := by
  induction l with
  | nil => rfl
  | cons p rest ih =>
    simp only [List.map_cons, List.cons.injEq]
    exact ⟨h p (List.mem_cons_self _ _),
      ih (fun q hq => h q (List.mem_cons_of_mem _ hq))⟩

/-- Sorting a list of records with pairwise-distinct episode numbers
yields a strictly ascending list. -/
theorem sortByEp_strict (l : List Rec)
    (h : (l.map (fun r => r.episode_in_season)).Nodup) :
    strictEp (sortByEp l) := by
  have hs : List.Sorted epLE (List.insertionSort epLE l) :=
    List.sorted_insertionSort epLE l
  have hperm : (List.insertionSort epLE l).Perm l :=
    List.perm_insertionSort epLE l
  have hnodup : ((List.insertionSort epLE l).map
      (fun r => r.episode_in_season)).Nodup :=
    ((hperm.map (fun r => r.episode_in_season)).nodup_iff).mpr h
  have hne : (List.insertionSort epLE l).Pairwise
      (fun a b => a.episode_in_season ≠ b.episode_in_season) :=
    List.pairwise_map.mp hnodup
  exact (hs.and hne).imp (fun hx => Nat.lt_of_le_of_ne hx.1 hx.2)

/-- A strictly ascending list has pairwise-distinct episode numbers. -/
theorem strictEp_nodup_eps (l : List Rec) (h : strictEp l) :
    (l.map (fun r => r.episode_in_season)).Nodup :=
  List.pairwise_map.mpr (h.imp (fun hx => Nat.ne_of_lt hx))

/-- Re-sorting a strictly ascending list keeps it strictly ascending. -/
theorem sortByEp_strict_of_strict (l : List Rec) (h : strictEp l) :
    strictEp (sortByEp l) :=
  sortByEp_strict l (strictEp_nodup_eps l h)

/-- Dedupe-then-sort always yields a strictly ascending list. -/
theorem sortedDedupe_strict (recs : List Rec) :
    strictEp (sortedDedupe recs) := by
  unfold sortedDedupe
  apply sortByEp_strict
  have hinv := dedupeFold_inv recs
  rw [map_ep_eq_map_fst _ hinv.2]
  exact hinv.1

/-- Every season list of the parsed consolidated table is of
dedupe-then-sort shape. -/
theorem parseMaster_shape (url : Option String) (cm : ColMap)
    (dataRows : List (List String)) :
    ∀ p ∈ parseMasterTableIntoDict url cm dataRows,
      ∃ raw, p.2 = sortedDedupe raw := by
  intro p hp
  unfold parseMasterTableIntoDict at hp
  rcases List.mem_map.mp hp with ⟨q, _, hq2⟩
  exact ⟨q.2, by rw [← hq2]⟩

/-- A successful season lookup is a member of the dictionary. -/
theorem assocFindS_mem (k : Nat) (l : List (Nat × List Rec))
    (v : List Rec) (h : assocFindS k l = some v) : (k, v) ∈ l := by
  induction l with
  | nil => cases h
  | cons p rest ih =>
    unfold assocFindS at h
    by_cases hp : p.1 = k
    · rw [if_pos hp] at h
      injection h with h1
      rw [← hp, ← h1]
      simp
    · rw [if_neg hp] at h
      exact List.mem_cons_of_mem _ (ih h)

/-- Members of an assigned dictionary. -/
theorem assocSetS_mem (k : Nat) (v : List Rec) (l : List (Nat × List Rec))
    (p : Nat × List Rec) (h : p ∈ assocSetS k v l) : p = (k, v) ∨ p ∈ l := by
  induction l with
  | nil => simpa [assocSetS] using h
  | cons q rest ih =>
    unfold assocSetS at h
    by_cases hq : q.1 = k
    · rw [if_pos hq] at h
      rcases List.mem_cons.mp h with h1 | h1
      · exact Or.inl h1
      · exact Or.inr (List.mem_cons_of_mem _ h1)
    · rw [if_neg hq] at h
      rcases List.mem_cons.mp h with h1 | h1
      · exact Or.inr (h1 ▸ List.mem_cons_self _ _)
      · rcases ih h1 with h2 | h2
        · exact Or.inl h2
        · exact Or.inr (List.mem_cons_of_mem _ h2)

/-- One sweep iteration preserves "every stored list is strictly
ascending". -/
theorem sweepStep_inv (fallback : Nat → List Rec)
    (hfb : ∀ sn, ∃ raw, fallback sn = sortedDedupe raw)
    (ebs : List (Nat × List Rec)) (sn : Nat)
    (h : ∀ p ∈ ebs, strictEp p.2) :
    ∀ p ∈ sweepStep fallback ebs sn, strictEp p.2 := by
  intro p hp
  unfold sweepStep at hp
  have hfbstrict : strictEp (sortByEp (fallback sn)) := by
    obtain ⟨raw, hraw⟩ := hfb sn
    rw [hraw]
    exact sortByEp_strict_of_strict _ (sortedDedupe_strict raw)
  revert hp
  cases hfind : assocFindS sn ebs with
  | none =>
    intro hp
    dsimp only at hp
    split at hp
    · exact h p hp
    · rcases assocSetS_mem _ _ _ p hp with h1 | h1
      · rw [h1]
        exact hfbstrict
      · exact h p h1
  | some l =>
    intro hp
    dsimp only at hp
    split at hp
    · rcases assocSetS_mem _ _ _ p hp with h1 | h1
      · rw [h1]
        exact sortByEp_strict_of_strict l (h (sn, l) (assocFindS_mem _ _ _ hfind))
      · exact h p h1
    · split at hp
      · exact h p hp
      · rcases assocSetS_mem _ _ _ p hp with h1 | h1
        · rw [h1]
          exact hfbstrict
        · exact h p h1

/-- The whole sweep preserves the invariant. -/
theorem sweepFold_inv (fallback : Nat → List Rec)
    (hfb : ∀ sn, ∃ raw, fallback sn = sortedDedupe raw) :
    ∀ (sns : List Nat) (ebs : List (Nat × List Rec)),
      (∀ p ∈ ebs, strictEp p.2) →
      ∀ p ∈ sns.foldl (sweepStep fallback) ebs, strictEp p.2 := by
  intro sns
  induction sns with
  | nil => intro ebs h p hp; exact h p hp
  | cons sn rest ih =>
    intro ebs h p hp
    simp only [List.foldl_cons] at hp
    exact ih _ (sweepStep_inv fallback hfb ebs sn h) p hp

/-- C10: in the mapping returned by `fetch_episodes_by_season` (master
parse plus per-season fallback sweep plus final tidy), every per-season
list is non-empty and strictly ascending in `episode_in_season` — so it
holds at most one record per episode number and is sorted ascending.
The fallback is abstract, constrained to the dedupe-then-sort shape that
both `_parse_season_page_for_episodes` return paths (lines 833-846 and
765-778) produce. -/
theorem c10_fetch_invariants (url : Option String) (cm : ColMap)
    (dataRows : List (List String)) (fallback : Nat → List Rec)
    (minS maxS : Nat)
    (hfb : ∀ sn, ∃ raw, fallback sn = sortedDedupe raw) :
    ∀ p ∈ fetchEpisodesBySeason (parseMasterTableIntoDict url cm dataRows)
        fallback minS maxS,
      p.2 ≠ [] ∧ strictEp p.2 := by
  intro p hp
  unfold fetchEpisodesBySeason at hp
  have hmem := List.mem_of_mem_filter hp
  have hcond := List.of_mem_filter hp
  constructor
  · simpa using hcond
  · apply sweepFold_inv fallback hfb _ _ _ p hmem
    intro q hq
    obtain ⟨raw, hraw⟩ := parseMaster_shape url cm dataRows q hq
    rw [hraw]
    exact sortedDedupe_strict raw

/-- C10 witness: a concrete master matrix with a duplicate episode key
and an empty fallback. -/
theorem c10_witness :
    (∀ sn : Nat, ∃ raw, (fun _ : Nat => ([] : List Rec)) sn = sortedDedupe raw) ∧
    ∀ p ∈ fetchEpisodesBySeason (parseMasterTableIntoDict none w10Cm w10Rows)
        (fun _ => []) 1 1,
      p.2 ≠ [] ∧ strictEp p.2 :=
  ⟨fun _ => ⟨[], rfl⟩,
   c10_fetch_invariants none w10Cm w10Rows (fun _ => []) 1 1
     (fun _ => ⟨[], rfl⟩)⟩

end Survivor
